import Mathlib

/-!
# Peak detection (`stm32f091/src/audio.c`)

A shallow embedding of the interrupt-driven peak detector: the calibration
tick handler `TIM2_IRQHandler`, the monitoring tick handler
`TIM6_DAC_IRQHandler`, `check_peak`, `calib_background` and `Audio_Run`.

Modelling conventions.

* The file-scope statics of `audio.c` are the fields of `State`.  A C `int`
  is an `Int`; signed overflow is undefined behaviour in C and lies outside
  the model.  The `uint8_t` of `Audio_Run` wraps modulo `2 ^ 8`.
* `read_adc()` is the input of a tick handler: every handler takes the
  converted value as its argument `adc`.
* Of the peripheral registers only the counter-enable bits of TIM2 and TIM6
  are state (`tim2_cen`, `tim6_cen`).  The drain pulse (GPIOA pin 10, TIM7)
  and the ADC start bit are never read by the detection logic and are left
  out.
* `buffer_vals` is a list; `State.WF` records that it has the `N = 10`
  entries of the C array and that the cursor `ind` is a valid index.
-/

namespace PeakDetect

/-! ## Parameters for peak detection -/

/-- The macro `N`: the number of entries of the ring buffer. -/
def N : Int := 10

/-- The macro `N_CALIB`: the tick count a calibration run has to pass. -/
def N_CALIB : Int := 100

/-- The macro `COOLDOWN`: the cooldown a counted peak has to exceed. -/
def COOLDOWN : Int := 4

/-- The macro `THRESH`: the margin between the two sliding sums. -/
def THRESH : Int := 200

/-- The statics of `audio.c`, the enable bits of the two cadence timers and
the one cell of the external signal store that `Audio_Run` touches. -/
structure State where
  buffer_vals : List Int
  ind : Int
  peak_flag : Int
  last_peak : Int
  bg_max : Int
  bg_iter : Int
  old_sum : Int
  new_sum : Int
  tim2_cen : Bool
  tim6_cen : Bool
  soundDetectedSignal : Nat
  deriving DecidableEq, Repr

/-- Array read `b[i]`. -/
def rd (b : List Int) (i : Int) : Int := b.getD i.toNat 0

/-- Array write `b[i] = v`. -/
def wr (b : List Int) (i : Int) (v : Int) : List Int := b.set i.toNat v

/-- Well-formed states: `buffer_vals` has `N` entries and `ind` indexes it. -/
def State.WF (s : State) : Prop :=
  s.buffer_vals.length = 10 ∧ 0 ≤ s.ind ∧ s.ind < 10

instance (s : State) : Decidable s.WF := by
  unfold State.WF; exact inferInstance

/-- The statics as initialised at load time, both timers still disabled. -/
def powerOn : State :=
  { buffer_vals := List.replicate 10 0, ind := 0, peak_flag := 0, last_peak := 0,
    bg_max := 0, bg_iter := 0, old_sum := 0, new_sum := 0,
    tim2_cen := false, tim6_cen := false, soundDetectedSignal := 0 }

/-- The timer part of `setup_peak_detection`: `setup_tim2` enables TIM2, `setup_tim6` leaves
TIM6 disabled (its enable line is commented out). -/
def setup_peak_detection (s : State) : State :=
  { s with tim2_cen := true }

/-! ## The handlers -/

/-- Timer 2 ISR: one calibration tick with converted value `adc`. -/
def TIM2_IRQHandler (s : State) (adc : Int) : State :=
  let sample := adc
  let bg_max := if s.bg_max > sample then s.bg_max else sample
  if s.bg_iter > N_CALIB then
    { s with
      bg_iter := s.bg_iter + 1
      bg_max := bg_max + (bg_max >>> (4 : Nat))
      tim2_cen := false
      tim6_cen := true }
  else
    { s with
      bg_iter := s.bg_iter + 1
      bg_max := bg_max }

/-- Timer 6 ISR: one monitoring tick with converted value `adc`. -/
def TIM6_DAC_IRQHandler (s : State) (adc : Int) : State :=
  let buf := wr s.buffer_vals s.ind adc
  let mid := rd buf (Int.tmod (s.ind + N - 3) N)
  let new_sum := s.new_sum + (rd buf s.ind - mid)
  let old_sum := s.old_sum + (mid - rd buf (Int.tmod (s.ind + N - 6) N))
  if new_sum > old_sum + THRESH ∧ s.last_peak > COOLDOWN ∧ rd buf s.ind > s.bg_max then
    { s with
      buffer_vals := buf
      new_sum := new_sum
      old_sum := old_sum
      last_peak := 0
      peak_flag := s.peak_flag + 1
      ind := Int.tmod (s.ind + 1) N }
  else
    { s with
      buffer_vals := buf
      new_sum := new_sum
      old_sum := old_sum
      last_peak := s.last_peak + 1
      ind := Int.tmod (s.ind + 1) N }

/-- The function `check_peak`: the returned value and the state left behind. -/
def check_peak (s : State) : Int × State :=
  let ret_val := s.peak_flag
  (ret_val, { s with peak_flag := 0 })

/-- The function `calib_background`: restart the noise calibration. -/
def calib_background (s : State) : State :=
  { s with bg_iter := 0, bg_max := 0, tim6_cen := false, tim2_cen := true }

/-- Modelled from the spec: `GlobalVariables_Read` of the absent module
`modules/GlobalVariables`, applied to `Global_SoundDetectedSignal`; the
shared signal store holds one `uint8_t` counter for this signal. -/
def GlobalVariables_Read (s : State) : Nat := s.soundDetectedSignal % 256

/-- Modelled from the spec: `GlobalVariables_Write` of the absent module
`modules/GlobalVariables`, applied to `Global_SoundDetectedSignal`. -/
def GlobalVariables_Write (s : State) (v : Nat) : State :=
  { s with soundDetectedSignal := v % 256 }

/-- The function `Audio_Run`: `signal` is a `uint8_t`, so `signal++` wraps modulo 256. -/
def Audio_Run (s : State) : State :=
  let r := check_peak s
  if r.1 > 0 then
    let signal := GlobalVariables_Read r.2
    let signal := (signal + 1) % 256
    GlobalVariables_Write r.2 signal
  else
    r.2

/-! ## Runs -/

/-- Consecutive monitoring ticks, one per converted value. -/
def monitor (s : State) (samples : List Int) : State :=
  samples.foldl TIM6_DAC_IRQHandler s

/-- Consecutive calibration ticks, one per converted value. -/
def calibrate (s : State) (samples : List Int) : State :=
  samples.foldl TIM2_IRQHandler s

/-- The state before tick index `k` of a monitoring run. -/
def stateAt (s : State) (samples : List Int) (k : Nat) : State :=
  monitor s (samples.take k)

/-- Tick index `i` of the monitoring run changes `peak_flag`. -/
def peakAt (s : State) (samples : List Int) (i : Nat) : Prop :=
  (stateAt s samples (i + 1)).peak_flag ≠ (stateAt s samples i).peak_flag

instance (s : State) (samples : List Int) (i : Nat) : Decidable (peakAt s samples i) := by
  unfold peakAt; exact inferInstance

/-- The reset state of the monitoring scenario: everything zero but the
noise floor. -/
def resetState (floor : Int) : State :=
  { powerOn with bg_max := floor, tim6_cen := true }

/-- The samples of the monitoring scenario. -/
def scenarioSamples : List Int := [50, 50, 50, 50, 50, 50, 600, 600, 600, 50]

/-- The condition tested by the monitoring tick (lines 112 to 114), on the
sums and the buffer as updated by that tick. -/
def peakCondition (s : State) (adc : Int) : Prop :=
  let buf := wr s.buffer_vals s.ind adc
  let mid := rd buf (Int.tmod (s.ind + N - 3) N)
  let new_sum := s.new_sum + (rd buf s.ind - mid)
  let old_sum := s.old_sum + (mid - rd buf (Int.tmod (s.ind + N - 6) N))
  new_sum > old_sum + THRESH ∧ s.last_peak > COOLDOWN ∧ rd buf s.ind > s.bg_max

instance (s : State) (adc : Int) : Decidable (peakCondition s adc) := by
  unfold peakCondition; exact inferInstance

/-- The monitoring step as the specification words it: `mid` and `far` are
read from the history before the tick, the test uses the sample `x` itself. -/
def monitorStepSpec (s : State) (x : Int) : State :=
  let mid := rd s.buffer_vals ((s.ind + 7) % 10)
  let far := rd s.buffer_vals ((s.ind + 4) % 10)
  let recent := s.new_sum + x - mid
  let prior := s.old_sum + mid - far
  let peak : Bool := decide (recent > prior + 200 ∧ s.last_peak > 4 ∧ x > s.bg_max)
  { s with
    buffer_vals := wr s.buffer_vals s.ind x
    new_sum := recent
    old_sum := prior
    peak_flag := if peak then s.peak_flag + 1 else s.peak_flag
    last_peak := if peak then 0 else s.last_peak + 1
    ind := (s.ind + 1) % 10 }

/-- The operations that act on the detector between two polls. -/
inductive Op where
  | calibTick (adc : Int)
  | monitorTick (adc : Int)
  | calibBackground
  deriving DecidableEq, Repr

/-- One operation. -/
def step (s : State) : Op → State
  | .calibTick adc => TIM2_IRQHandler s adc
  | .monitorTick adc => TIM6_DAC_IRQHandler s adc
  | .calibBackground => calib_background s

/-- A sequence of operations, in order. -/
def run (s : State) (ops : List Op) : State :=
  ops.foldl step s

/-- The number of monitoring ticks of `ops`, run from `s`, at which the peak
condition holds. -/
def peakTicks : State → List Op → Nat
  | _, [] => 0
  | s, .monitorTick adc :: ops =>
      (if peakCondition s adc then 1 else 0) + peakTicks (TIM6_DAC_IRQHandler s adc) ops
  | s, op :: ops => peakTicks (step s op) ops

/-- A state reached during monitoring: the scenario followed by six quiet
ticks (one peak counted, cooldown 9, the ring buffer full of samples). -/
def monitoredState : State :=
  monitor (resetState 300) (scenarioSamples ++ [50, 50, 50, 50, 50, 50])

/-- Every operation that touches the statics after start-up. -/
inductive Action where
  | tim2 (adc : Int)
  | tim6 (adc : Int)
  | checkPeak
  | calibBackground
  | audioRun
  deriving DecidableEq, Repr

/-- One operation, whichever timer is enabled. -/
def act (s : State) : Action → State
  | .tim2 adc => TIM2_IRQHandler s adc
  | .tim6 adc => TIM6_DAC_IRQHandler s adc
  | .checkPeak => (check_peak s).2
  | .calibBackground => calib_background s
  | .audioRun => Audio_Run s

/-- A sequence of operations, in order. -/
def exec (s : State) (acts : List Action) : State :=
  acts.foldl act s

/-- One operation on the hardware: a timer delivers its tick only while its
counter is enabled. -/
def deliver (s : State) : Action → State
  | .tim2 adc => if s.tim2_cen then TIM2_IRQHandler s adc else s
  | .tim6 adc => if s.tim6_cen then TIM6_DAC_IRQHandler s adc else s
  | a => act s a

/-- A sequence of operations on the hardware, in order. -/
def execGated (s : State) (acts : List Action) : State :=
  acts.foldl deliver s

/-- The values converted by the monitoring ticks of a sequence, in order. -/
def monitorSamples : List Action → List Int
  | [] => []
  | .tim6 adc :: acts => adc :: monitorSamples acts
  | _ :: acts => monitorSamples acts

/-- The converted value of a tick is a 12-bit ADC result. -/
def Action.inRange : Action → Prop
  | .tim2 adc => 0 ≤ adc ∧ adc ≤ 4095
  | .tim6 adc => 0 ≤ adc ∧ adc ≤ 4095
  | _ => True

/-- The two running sums are the two 3-sample windows of the ring buffer. -/
def SumsInv (s : State) : Prop :=
  s.new_sum = rd s.buffer_vals ((s.ind + 9) % 10) + rd s.buffer_vals ((s.ind + 8) % 10)
      + rd s.buffer_vals ((s.ind + 7) % 10) ∧
    s.old_sum = rd s.buffer_vals ((s.ind + 6) % 10) + rd s.buffer_vals ((s.ind + 5) % 10)
      + rd s.buffer_vals ((s.ind + 4) % 10)

/-- The state just before monitoring restarts: `monitoredState`, then
`calib_background` and 101 calibration ticks of value 50. -/
def preMonitorState : State :=
  calibrate (calib_background monitoredState) (List.replicate 101 50)

/-- A run with twelve monitoring ticks (values 1 to 12), a calibration tick
and a poll in between. -/
def retentionRun : List Action :=
  [.tim6 1, .tim6 2, .tim6 3, .tim6 4, .tim6 5, .tim2 99, .tim6 6, .tim6 7, .tim6 8,
    .tim6 9, .tim6 10, .tim6 11, .checkPeak, .tim6 12]

instance : DecidablePred Action.inRange := fun a => by
  cases a <;> unfold Action.inRange <;> exact inferInstance

/-- Every buffer slot holds a 12-bit value. -/
def BufInv (s : State) : Prop :=
  ∀ i : Int, 0 ≤ rd s.buffer_vals i ∧ rd s.buffer_vals i ≤ 4095

/-- A run in which every converted value is a 12-bit value. -/
def rangeRun : List Action :=
  [.tim2 4095, .tim6 4095, .tim6 0, .tim6 4095, .checkPeak, .tim6 4095, .tim6 4095,
    .tim6 4095, .audioRun, .tim6 0]

/-! ## Step lemmas -/

theorem monitor_nil (s : State) : monitor s [] = s := rfl

theorem monitor_cons (s : State) (x : Int) (xs : List Int) :
    monitor s (x :: xs) = monitor (TIM6_DAC_IRQHandler s x) xs := rfl

theorem monitor_append (s : State) (xs ys : List Int) :
    monitor s (xs ++ ys) = monitor (monitor s xs) ys := by
  simp [monitor, List.foldl_append]

theorem stateAt_succ (s : State) (xs : List Int) (i : Nat) (h : i < xs.length) :
    stateAt s xs (i + 1) = TIM6_DAC_IRQHandler (stateAt s xs i) (xs.getD i 0) := by
  unfold stateAt
  rw [List.take_succ, monitor_append]
  simp [List.getElem?_eq_getElem h, monitor, List.getD_eq_getElem _ _ h]

theorem stateAt_of_length_le (s : State) (xs : List Int) (i : Nat) (h : xs.length ≤ i) :
    stateAt s xs i = monitor s xs := by
  unfold stateAt
  rw [List.take_of_length_le h]

/-- What one monitoring tick does to the peak counter and the cooldown. -/
theorem tick_cases (s : State) (x : Int) :
    (4 < s.last_peak ∧ (TIM6_DAC_IRQHandler s x).peak_flag = s.peak_flag + 1 ∧
        (TIM6_DAC_IRQHandler s x).last_peak = 0) ∨
      ((TIM6_DAC_IRQHandler s x).peak_flag = s.peak_flag ∧
        (TIM6_DAC_IRQHandler s x).last_peak = s.last_peak + 1) := by
  unfold TIM6_DAC_IRQHandler
  simp only [COOLDOWN]
  split
  · next h => exact Or.inl ⟨h.2.1, rfl, rfl⟩
  · exact Or.inr ⟨rfl, rfl⟩

theorem tick_no_peak_of_cooldown (s : State) (x : Int) (h : s.last_peak ≤ 4) :
    (TIM6_DAC_IRQHandler s x).peak_flag = s.peak_flag ∧
      (TIM6_DAC_IRQHandler s x).last_peak = s.last_peak + 1 := by
  rcases tick_cases s x with h1 | h1
  · omega
  · exact h1

theorem peakAt_lt_length (s : State) (xs : List Int) (i : Nat) (h : peakAt s xs i) :
    i < xs.length := by
  by_contra hn
  have hle : xs.length ≤ i := by omega
  apply h
  rw [stateAt_of_length_le s xs i hle, stateAt_of_length_le s xs (i + 1) (by omega)]

theorem peakAt_cooldown (s : State) (xs : List Int) (i : Nat) (h : peakAt s xs i) :
    4 < (stateAt s xs i).last_peak ∧ (stateAt s xs (i + 1)).last_peak = 0 := by
  have hlt := peakAt_lt_length s xs i h
  unfold peakAt at h
  rw [stateAt_succ s xs i hlt] at h ⊢
  rcases tick_cases (stateAt s xs i) (xs.getD i 0) with h1 | h1
  · exact ⟨h1.1, h1.2.2⟩
  · exact absurd h1.1 h

/-- After a counted peak at tick `i` the cooldown counts the ticks since. -/
theorem cooldown_after_peak (s : State) (xs : List Int) (i : Nat)
    (h0 : (stateAt s xs (i + 1)).last_peak = 0) (m : Nat) :
    m ≤ 5 → i + 1 + m ≤ xs.length → (stateAt s xs (i + 1 + m)).last_peak = (m : Int) := by
  induction m with
  | zero => intro _ _; simpa using h0
  | succ m ih =>
    intro h5 hlen
    have ihm := ih (by omega) (by omega)
    have hstep := stateAt_succ s xs (i + 1 + m) (by omega)
    have := tick_no_peak_of_cooldown (stateAt s xs (i + 1 + m)) (xs.getD (i + 1 + m) 0)
      (by rw [ihm]; omega)
    rw [show i + 1 + (m + 1) = i + 1 + m + 1 by omega, hstep, this.2, ihm]
    push_cast; ring

theorem no_peak_in_cooldown (s : State) (xs : List Int) (i : Nat) (h : peakAt s xs i)
    (k : Nat) (hik : i < k) (hk : k ≤ i + 5) : ¬ peakAt s xs k := by
  intro hp
  have hlt := peakAt_lt_length s xs k hp
  have h0 := (peakAt_cooldown s xs i h).2
  obtain ⟨m, rfl⟩ : ∃ m, k = i + 1 + m := ⟨k - (i + 1), by omega⟩
  have hc := cooldown_after_peak s xs i h0 m (by omega) (by omega)
  have := (peakAt_cooldown s xs (i + 1 + m) hp).1
  rw [hc] at this
  omega

/-! ## Buffer lemmas -/

theorem rd_wr_same (b : List Int) (i v : Int) (h : i.toNat < b.length) :
    rd (wr b i v) i = v := by
  simp [rd, wr, List.getD_eq_getElem?_getD, List.getElem?_set, h]

theorem rd_wr_other (b : List Int) (i j v : Int) (h : i.toNat ≠ j.toNat) :
    rd (wr b i v) j = rd b j := by
  simp [rd, wr, List.getD_eq_getElem?_getD, List.getElem?_set, h]

theorem rd_wr_ind (s : State) (x : Int) (h : s.WF) :
    rd (wr s.buffer_vals s.ind x) s.ind = x := by
  obtain ⟨hlen, h0, h1⟩ := h
  exact rd_wr_same _ _ _ (by rw [hlen]; omega)

theorem tick_WF (s : State) (x : Int) (h : s.WF) : (TIM6_DAC_IRQHandler s x).WF := by
  obtain ⟨hlen, h0, h1⟩ := h
  have hi : 0 ≤ Int.tmod (s.ind + 1) 10 ∧ Int.tmod (s.ind + 1) 10 < 10 := by
    rw [Int.tmod_eq_emod (by omega) (by decide)]; omega
  unfold TIM6_DAC_IRQHandler
  dsimp only
  split <;> simp [State.WF, wr, hlen, N, hi.1, hi.2]

theorem tick_bg_max (s : State) (x : Int) : (TIM6_DAC_IRQHandler s x).bg_max = s.bg_max := by
  unfold TIM6_DAC_IRQHandler
  dsimp only
  split <;> rfl

theorem tick_peak_iff (s : State) (x : Int) :
    (TIM6_DAC_IRQHandler s x).peak_flag = s.peak_flag + 1 ↔ peakCondition s x := by
  unfold TIM6_DAC_IRQHandler peakCondition
  simp only
  split
  · next h => simp [h]
  · next h =>
    simp only [h, iff_false]
    omega

theorem tick_quiet (s : State) (x : Int) (h : s.WF) (hx : x ≤ s.bg_max) :
    (TIM6_DAC_IRQHandler s x).peak_flag = s.peak_flag := by
  have hrd := rd_wr_ind s x h
  unfold TIM6_DAC_IRQHandler
  simp only [hrd]
  split
  · next hc => omega
  · rfl

theorem run_peak_flag (ops : List Op) :
    ∀ s : State, (run s ops).peak_flag = s.peak_flag + (peakTicks s ops : Int) := by
  induction ops with
  | nil => intro s; simp [run, peakTicks]
  | cons op t ih =>
    intro s
    have hrun : run s (op :: t) = run (step s op) t := rfl
    rw [hrun, ih]
    cases op with
    | calibTick adc =>
      have : (step s (.calibTick adc)).peak_flag = s.peak_flag := by
        simp only [step, TIM2_IRQHandler]; split <;> rfl
      rw [this]; simp [peakTicks]
    | monitorTick adc =>
      simp only [peakTicks, step]
      by_cases hc : peakCondition s adc
      · rw [(tick_peak_iff s adc).mpr hc]; simp [hc]; ring
      · have hne := mt (tick_peak_iff s adc).mp hc
        rcases tick_cases s adc with h1 | h1
        · exact absurd h1.2.1 hne
        · rw [h1.1]; simp [hc]
    | calibBackground =>
      simp [peakTicks, step, calib_background]

theorem calibTick_frame (s : State) (x : Int) :
    (TIM2_IRQHandler s x).peak_flag = s.peak_flag ∧
      (TIM2_IRQHandler s x).last_peak = s.last_peak ∧
      (TIM2_IRQHandler s x).buffer_vals = s.buffer_vals ∧
      (TIM2_IRQHandler s x).ind = s.ind ∧
      (TIM2_IRQHandler s x).new_sum = s.new_sum ∧
      (TIM2_IRQHandler s x).old_sum = s.old_sum := by
  unfold TIM2_IRQHandler
  dsimp only
  split <;> exact ⟨rfl, rfl, rfl, rfl, rfl, rfl⟩

theorem calibrate_frame (xs : List Int) :
    ∀ s : State,
      (calibrate s xs).peak_flag = s.peak_flag ∧
      (calibrate s xs).last_peak = s.last_peak ∧
      (calibrate s xs).buffer_vals = s.buffer_vals ∧
      (calibrate s xs).ind = s.ind ∧
      (calibrate s xs).new_sum = s.new_sum ∧
      (calibrate s xs).old_sum = s.old_sum := by
  induction xs with
  | nil => intro s; exact ⟨rfl, rfl, rfl, rfl, rfl, rfl⟩
  | cons x t ih =>
    intro s
    have h1 := ih (TIM2_IRQHandler s x)
    have h2 := calibTick_frame s x
    show (calibrate (TIM2_IRQHandler s x) t).peak_flag = _ ∧ _
    exact ⟨h1.1.trans h2.1, h1.2.1.trans h2.2.1, h1.2.2.1.trans h2.2.2.1,
      h1.2.2.2.1.trans h2.2.2.2.1, h1.2.2.2.2.1.trans h2.2.2.2.2.1,
      h1.2.2.2.2.2.trans h2.2.2.2.2.2⟩

/-- Under well-formedness the three indices of a monitoring tick are the
cursor, `(ind + 7) % 10` and `(ind + 4) % 10`, and the write at the cursor
does not touch the other two slots. -/
theorem tick_reads (s : State) (x : Int) (h : s.WF) :
    rd (wr s.buffer_vals s.ind x) (Int.tmod (s.ind + N - 3) N)
        = rd s.buffer_vals ((s.ind + 7) % 10) ∧
      rd (wr s.buffer_vals s.ind x) (Int.tmod (s.ind + N - 6) N)
        = rd s.buffer_vals ((s.ind + 4) % 10) ∧
      Int.tmod (s.ind + 1) N = (s.ind + 1) % 10 := by
  obtain ⟨_, h0, h1⟩ := h
  simp only [N]
  rw [Int.tmod_eq_emod (by omega) (by decide), Int.tmod_eq_emod (by omega) (by decide),
    Int.tmod_eq_emod (by omega) (by decide)]
  refine ⟨?_, ?_, rfl⟩
  · rw [show s.ind + 10 - 3 = s.ind + 7 by ring]
    exact rd_wr_other _ _ _ _ (by omega)
  · rw [show s.ind + 10 - 6 = s.ind + 4 by ring]
    exact rd_wr_other _ _ _ _ (by omega)

/-! ## Calibration lemmas -/

theorem calibrate_append (s : State) (xs ys : List Int) :
    calibrate s (xs ++ ys) = calibrate (calibrate s xs) ys := by
  simp [calibrate, List.foldl_append]

/-- While the tick counter has not passed `N_CALIB`, calibration ticks only
count and track the running maximum. -/
theorem calibrate_counting (xs : List Int) :
    ∀ s : State, s.bg_iter + xs.length ≤ 101 →
      calibrate s xs =
        { s with bg_iter := s.bg_iter + xs.length, bg_max := xs.foldl max s.bg_max } := by
  induction xs with
  | nil => intro s _; simp [calibrate]
  | cons x t ih =>
    intro s h
    simp only [List.length_cons, Nat.cast_add, Nat.cast_one] at h
    have hstep : TIM2_IRQHandler s x = { s with bg_iter := s.bg_iter + 1, bg_max := max s.bg_max x } := by
      unfold TIM2_IRQHandler
      have hlen : (0 : Int) ≤ (t.length : Int) := Int.natCast_nonneg _
      have hc : ¬ s.bg_iter > N_CALIB := by simp only [N_CALIB]; omega
      simp only [hc, if_false]
      congr 1
      rcases le_total s.bg_max x with hle | hle
      · rw [max_eq_right hle]; split <;> omega
      · rw [max_eq_left hle]; split <;> omega
    have := ih (TIM2_IRQHandler s x) (by rw [hstep]; simp only; omega)
    show calibrate (TIM2_IRQHandler s x) t = _
    rw [this, hstep]
    simp only [List.length_cons, Nat.cast_add, Nat.cast_one, List.foldl_cons]
    congr 1
    ring

theorem foldl_max_ge_init (xs : List Int) : ∀ a : Int, a ≤ xs.foldl max a := by
  induction xs with
  | nil => intro a; simp
  | cons x t ih => intro a; exact le_trans (le_max_left a x) (ih (max a x))

theorem foldl_max_ge_mem (xs : List Int) : ∀ a x : Int, x ∈ xs → x ≤ xs.foldl max a := by
  induction xs with
  | nil => intro a x h; simp at h
  | cons y t ih =>
    intro a x h
    rcases List.mem_cons.mp h with rfl | h
    · exact le_trans (le_max_right a x) (foldl_max_ge_init t (max a x))
    · exact ih (max a y) x h

theorem foldl_max_le (xs : List Int) (M : Int) :
    ∀ a : Int, a ≤ M → (∀ x ∈ xs, x ≤ M) → xs.foldl max a ≤ M := by
  induction xs with
  | nil => intro a ha _; simpa using ha
  | cons y t ih =>
    intro a ha h
    exact ih (max a y) (max_le ha (h y (List.mem_cons_self y t)))
      (fun x hx => h x (List.mem_cons_of_mem y hx))

theorem foldl_max_eq (xs : List Int) (a M : Int) (ha : a ≤ M) (hM : M ∈ xs)
    (hmax : ∀ x ∈ xs, x ≤ M) : xs.foldl max a = M :=
  le_antisymm (foldl_max_le xs M a ha hmax) (foldl_max_ge_mem xs a M hM)

theorem margin_eq (m : Int) : m + (m >>> (4 : Nat)) = 17 * m / 16 := by
  rw [Int.shiftRight_eq_div_pow]
  norm_num
  omega

theorem foldl_max_replicate (n : Nat) (a v : Int) (ha : a ≤ v) :
    (List.replicate (n + 1) v).foldl max a = v :=
  foldl_max_eq _ a v ha (by simp [List.replicate_succ])
    (fun x hx => le_of_eq (List.eq_of_mem_replicate hx))

/-- A calibration run of 102 ticks started by `calib_background`. -/
theorem calibrate_full (s : State) (xs : List Int) (hlen : xs.length = 102) :
    calibrate (calib_background s) xs =
      { calib_background s with
        bg_iter := 102
        bg_max := 17 * xs.foldl max 0 / 16
        tim2_cen := false
        tim6_cen := true } := by
  obtain ⟨init, last, rfl⟩ : ∃ init last, xs = init ++ [last] := by
    refine ⟨xs.dropLast, xs.getLast (by intro h; simp [h] at hlen), ?_⟩
    exact (List.dropLast_append_getLast _).symm
  simp only [List.length_append, List.length_singleton] at hlen
  have hinit : init.length = 101 := by omega
  rw [calibrate_append, calibrate_counting init (calib_background s)
    (by simp [calib_background, hinit])]
  simp only [calibrate, List.foldl_cons, List.foldl_nil, List.foldl_append]
  unfold TIM2_IRQHandler
  simp only [calib_background, hinit, N_CALIB]
  norm_num
  rw [← margin_eq]
  have hm : (if last < init.foldl max 0 then init.foldl max 0 else last)
      = max (init.foldl max 0) last := by
    rcases le_total (init.foldl max 0) last with hle | hle
    · rw [max_eq_right hle]; split <;> omega
    · rw [max_eq_left hle]; split <;> omega
  rw [hm]

/-! ## Invariants of the whole detector -/

theorem tick_eq_spec (s : State) (x : Int) (hwf : s.WF) :
    TIM6_DAC_IRQHandler s x = monitorStepSpec s x := by
  have hx := rd_wr_ind s x hwf
  obtain ⟨hmid, hfar, hind⟩ := tick_reads s x hwf
  have hsums : ∀ a b c d : Int, a + (x - c) > b + (c - d) + 200 ↔ a + x - c > b + c - d + 200 := by
    intro a b c d; constructor <;> intro h <;> omega
  unfold TIM6_DAC_IRQHandler monitorStepSpec
  simp only [hx, hmid, hfar, hind, THRESH, COOLDOWN, hsums]
  split
  · next hc => simp only [hc, decide_True, if_true]; congr 1 <;> ring
  · next hc => simp only [hc, decide_False]; congr 1 <;> ring

theorem spec_buffer (s : State) (x : Int) :
    (monitorStepSpec s x).buffer_vals = wr s.buffer_vals s.ind x ∧
      (monitorStepSpec s x).ind = (s.ind + 1) % 10 ∧
      (monitorStepSpec s x).new_sum = s.new_sum + x - rd s.buffer_vals ((s.ind + 7) % 10) ∧
      (monitorStepSpec s x).old_sum
        = s.old_sum + rd s.buffer_vals ((s.ind + 7) % 10) - rd s.buffer_vals ((s.ind + 4) % 10) :=
  ⟨rfl, rfl, rfl, rfl⟩

/-- After a tick, slot `(ind' + 9 - j) % 10` of the buffer is the sample for
`j = 0` and slot `(ind + 9 - (j - 1)) % 10` of the old buffer for `1 ≤ j ≤ 9`. -/
theorem tick_slot_zero (s : State) (x : Int) (hwf : s.WF) :
    rd (TIM6_DAC_IRQHandler s x).buffer_vals (((TIM6_DAC_IRQHandler s x).ind + 9) % 10) = x := by
  rw [tick_eq_spec s x hwf, (spec_buffer s x).1, (spec_buffer s x).2.1]
  obtain ⟨hlen, h0, h1⟩ := hwf
  rw [show ((s.ind + 1) % 10 + 9) % 10 = s.ind by omega]
  exact rd_wr_same _ _ _ (by rw [hlen]; omega)

theorem tick_slot_succ (s : State) (x : Int) (hwf : s.WF) (j : Int) (hj0 : 0 ≤ j) (hj : j ≤ 8) :
    rd (TIM6_DAC_IRQHandler s x).buffer_vals (((TIM6_DAC_IRQHandler s x).ind + 8 - j) % 10)
      = rd s.buffer_vals ((s.ind + 9 - j) % 10) := by
  rw [tick_eq_spec s x hwf, (spec_buffer s x).1, (spec_buffer s x).2.1]
  obtain ⟨hlen, h0, h1⟩ := hwf
  rw [show ((s.ind + 1) % 10 + 8 - j) % 10 = (s.ind + 9 - j) % 10 by omega]
  exact rd_wr_other _ _ _ _ (by omega)

theorem tick_SumsInv (s : State) (x : Int) (hwf : s.WF) (h : SumsInv s) :
    SumsInv (TIM6_DAC_IRQHandler s x) := by
  have z := tick_slot_zero s x hwf
  have s0 := tick_slot_succ s x hwf 0 (by omega) (by omega)
  have s1 := tick_slot_succ s x hwf 1 (by omega) (by omega)
  have s2 := tick_slot_succ s x hwf 2 (by omega) (by omega)
  have s3 := tick_slot_succ s x hwf 3 (by omega) (by omega)
  have s4 := tick_slot_succ s x hwf 4 (by omega) (by omega)
  have hn : (TIM6_DAC_IRQHandler s x).new_sum
      = s.new_sum + x - rd s.buffer_vals ((s.ind + 7) % 10) := by
    rw [tick_eq_spec s x hwf]; rfl
  have ho : (TIM6_DAC_IRQHandler s x).old_sum
      = s.old_sum + rd s.buffer_vals ((s.ind + 7) % 10) - rd s.buffer_vals ((s.ind + 4) % 10) := by
    rw [tick_eq_spec s x hwf]; rfl
  obtain ⟨hnew, hold⟩ := h
  generalize TIM6_DAC_IRQHandler s x = t at *
  simp only [show t.ind + 8 - 0 = t.ind + 8 by ring, show t.ind + 8 - 1 = t.ind + 7 by ring,
    show t.ind + 8 - 2 = t.ind + 6 by ring, show t.ind + 8 - 3 = t.ind + 5 by ring,
    show t.ind + 8 - 4 = t.ind + 4 by ring, show s.ind + 9 - 0 = s.ind + 9 by ring,
    show s.ind + 9 - 1 = s.ind + 8 by ring, show s.ind + 9 - 2 = s.ind + 7 by ring,
    show s.ind + 9 - 3 = s.ind + 6 by ring, show s.ind + 9 - 4 = s.ind + 5 by ring]
    at s0 s1 s2 s3 s4
  unfold SumsInv
  rw [z, s0, s1, s2, s3, s4, hn, ho, hnew, hold]
  constructor <;> ring

theorem act_frame (s : State) (a : Action) (h : ∀ adc, a ≠ .tim6 adc) :
    (act s a).buffer_vals = s.buffer_vals ∧ (act s a).ind = s.ind ∧
      (act s a).new_sum = s.new_sum ∧ (act s a).old_sum = s.old_sum := by
  cases a with
  | tim2 adc =>
    have := calibTick_frame s adc
    exact ⟨this.2.2.1, this.2.2.2.1, this.2.2.2.2.1, this.2.2.2.2.2⟩
  | tim6 adc => exact absurd rfl (h adc)
  | checkPeak => exact ⟨rfl, rfl, rfl, rfl⟩
  | calibBackground => exact ⟨rfl, rfl, rfl, rfl⟩
  | audioRun =>
    simp only [act, Audio_Run, check_peak, GlobalVariables_Write]
    split <;> exact ⟨rfl, rfl, rfl, rfl⟩

theorem act_WF (s : State) (a : Action) (hwf : s.WF) : (act s a).WF := by
  by_cases h : ∃ adc, a = .tim6 adc
  · obtain ⟨adc, rfl⟩ := h
    exact tick_WF s adc hwf
  · have := act_frame s a (fun adc hh => h ⟨adc, hh⟩)
    unfold State.WF at hwf ⊢
    rw [this.1, this.2.1]
    exact hwf

theorem act_SumsInv (s : State) (a : Action) (hwf : s.WF) (h : SumsInv s) :
    SumsInv (act s a) := by
  by_cases ht : ∃ adc, a = .tim6 adc
  · obtain ⟨adc, rfl⟩ := ht
    exact tick_SumsInv s adc hwf h
  · have := act_frame s a (fun adc hh => ht ⟨adc, hh⟩)
    unfold SumsInv at h ⊢
    rw [this.1, this.2.1, this.2.2.1, this.2.2.2]
    exact h

theorem exec_snoc (s : State) (acts : List Action) (a : Action) :
    exec s (acts ++ [a]) = act (exec s acts) a := by
  simp [exec, List.foldl_append]

theorem exec_WF (s : State) (hwf : s.WF) (acts : List Action) : (exec s acts).WF := by
  induction acts using List.reverseRecOn with
  | nil => exact hwf
  | append_singleton t a ih => rw [exec_snoc]; exact act_WF _ a ih

theorem exec_SumsInv (s : State) (hwf : s.WF) (h : SumsInv s) (acts : List Action) :
    SumsInv (exec s acts) := by
  induction acts using List.reverseRecOn with
  | nil => exact h
  | append_singleton t a ih => rw [exec_snoc]; exact act_SumsInv _ a (exec_WF s hwf t) ih

theorem powerOn_WF : powerOn.WF := by decide

theorem powerOn_SumsInv : SumsInv powerOn := by
  unfold SumsInv; decide

theorem act_timers (s : State) (a : Action)
    (h : (s.tim2_cen = true ∧ s.tim6_cen = false) ∨ (s.tim2_cen = false ∧ s.tim6_cen = true)) :
    ((act s a).tim2_cen = true ∧ (act s a).tim6_cen = false) ∨
      ((act s a).tim2_cen = false ∧ (act s a).tim6_cen = true) := by
  cases a with
  | tim2 adc =>
    simp only [act, TIM2_IRQHandler]
    split
    · exact Or.inr ⟨rfl, rfl⟩
    · exact h
  | tim6 adc =>
    simp only [act, TIM6_DAC_IRQHandler]
    split <;> exact h
  | checkPeak => exact h
  | calibBackground => exact Or.inl ⟨rfl, rfl⟩
  | audioRun =>
    simp only [act, Audio_Run, check_peak, GlobalVariables_Write]
    split <;> exact h

theorem deliver_timers (s : State) (a : Action)
    (h : (s.tim2_cen = true ∧ s.tim6_cen = false) ∨ (s.tim2_cen = false ∧ s.tim6_cen = true)) :
    ((deliver s a).tim2_cen = true ∧ (deliver s a).tim6_cen = false) ∨
      ((deliver s a).tim2_cen = false ∧ (deliver s a).tim6_cen = true) := by
  cases a with
  | tim2 adc =>
    simp only [deliver]
    split
    · exact act_timers s (.tim2 adc) h
    · exact h
  | tim6 adc =>
    simp only [deliver]
    split
    · exact act_timers s (.tim6 adc) h
    · exact h
  | checkPeak => exact act_timers s .checkPeak h
  | calibBackground => exact act_timers s .calibBackground h
  | audioRun => exact act_timers s .audioRun h

theorem preMonitorState_eq :
    preMonitorState
      = { monitoredState with bg_iter := 101, bg_max := 50, tim2_cen := true, tim6_cen := false } := by
  unfold preMonitorState
  rw [calibrate_counting _ _ (by simp [calib_background])]
  simp only [calib_background, foldl_max_replicate 100 0 50 (by decide)]
  rfl

theorem monitorSamples_append (xs ys : List Action) :
    monitorSamples (xs ++ ys) = monitorSamples xs ++ monitorSamples ys := by
  induction xs with
  | nil => rfl
  | cons a t ih => cases a <;> simp [monitorSamples, ih]

/-- The buffer slot `j` places behind the cursor holds the `j`-th most recent
monitoring sample, for as many samples as were taken (at most 10). -/
theorem retention (s : State) (hwf : s.WF) (acts : List Action) :
    ∀ j : Nat, j < 10 → j < (monitorSamples acts).length →
      rd (exec s acts).buffer_vals (((exec s acts).ind + 9 - (j : Int)) % 10)
        = (monitorSamples acts).getD ((monitorSamples acts).length - 1 - j) 0 := by
  induction acts using List.reverseRecOn with
  | nil => intro j _ hj; simp [monitorSamples] at hj
  | append_singleton t a ih =>
    intro j hj10 hj
    have hwt := exec_WF s hwf t
    rw [exec_snoc, monitorSamples_append] at *
    by_cases ht : ∃ adc, a = .tim6 adc
    · obtain ⟨adc, rfl⟩ := ht
      simp only [monitorSamples, List.length_append, List.length_singleton] at hj ⊢
      show rd (TIM6_DAC_IRQHandler (exec s t) adc).buffer_vals
        (((TIM6_DAC_IRQHandler (exec s t) adc).ind + 9 - (j : Int)) % 10) = _
      cases j with
      | zero =>
        simp only [Nat.cast_zero, sub_zero, Nat.add_sub_cancel, Nat.sub_zero]
        rw [tick_slot_zero _ _ hwt, List.getD_append_right _ _ _ _ (le_refl _)]
        simp
      | succ i =>
        have hs := tick_slot_succ (exec s t) adc hwt (i : Int) (by omega) (by omega)
        rw [show (TIM6_DAC_IRQHandler (exec s t) adc).ind + 9 - ((i + 1 : Nat) : Int)
          = (TIM6_DAC_IRQHandler (exec s t) adc).ind + 8 - (i : Int) by push_cast; ring, hs,
          ih i (by omega) (by omega)]
        have e : (monitorSamples t).length + 1 - 1 - (i + 1) = (monitorSamples t).length - 1 - i := by
          omega
        rw [e, List.getD_append _ _ _ _ (by omega)]
    · have hf := act_frame (exec s t) a (fun adc hh => ht ⟨adc, hh⟩)
      have hms : monitorSamples [a] = [] := by
        cases a with
        | tim6 adc => exact absurd ⟨adc, rfl⟩ ht
        | _ => rfl
      rw [hms, List.append_nil] at hj ⊢
      rw [hf.1, hf.2.1]
      exact ih j hj10 hj

theorem rd_wr_cases (b : List Int) (i j v : Int) :
    rd (wr b i v) j = v ∨ rd (wr b i v) j = rd b j := by
  simp only [rd, wr, List.getD_eq_getElem?_getD, List.getElem?_set]
  split
  · split
    · exact Or.inl rfl
    · next h1 h2 =>
      right
      rw [← h1, List.getElem?_eq_none (by omega)]
  · exact Or.inr rfl

theorem tick_buffer (s : State) (x : Int) :
    (TIM6_DAC_IRQHandler s x).buffer_vals = wr s.buffer_vals s.ind x := by
  unfold TIM6_DAC_IRQHandler
  dsimp only
  split <;> rfl

theorem wr_BufInv (s : State) (x : Int) (h0 : 0 ≤ x) (h1 : x ≤ 4095) (hb : BufInv s) (i : Int) :
    0 ≤ rd (wr s.buffer_vals s.ind x) i ∧ rd (wr s.buffer_vals s.ind x) i ≤ 4095 := by
  rcases rd_wr_cases s.buffer_vals s.ind i x with h | h
  · rw [h]; exact ⟨h0, h1⟩
  · rw [h]; exact hb i

theorem act_BufInv (s : State) (a : Action) (ha : a.inRange) (hb : BufInv s) :
    BufInv (act s a) := by
  by_cases ht : ∃ adc, a = .tim6 adc
  · obtain ⟨adc, rfl⟩ := ht
    intro i
    have hbuf : (act s (.tim6 adc)).buffer_vals = wr s.buffer_vals s.ind adc := tick_buffer s adc
    rw [hbuf]
    exact wr_BufInv s adc ha.1 ha.2 hb i
  · have := act_frame s a (fun adc hh => ht ⟨adc, hh⟩)
    intro i
    rw [this.1]
    exact hb i

theorem exec_BufInv (s : State) (hb : BufInv s) (acts : List Action)
    (h : ∀ a ∈ acts, a.inRange) : BufInv (exec s acts) := by
  induction acts using List.reverseRecOn with
  | nil => exact hb
  | append_singleton t a ih =>
    rw [exec_snoc]
    exact act_BufInv _ a (h a (by simp)) (ih (fun b hb => h b (by simp [hb])))

theorem rd_replicate (n : Nat) (i : Int) : rd (List.replicate n 0) i = 0 := by
  unfold rd
  rw [List.getD_eq_getElem?_getD, List.getElem?_replicate]
  split <;> rfl

theorem powerOn_BufInv : BufInv powerOn := by
  intro i
  simp only [powerOn, rd_replicate]
  omega

/-- Bounds on the sums from the two invariants. -/
theorem sums_bounded (s : State) (hs : SumsInv s) (hb : BufInv s) :
    (0 ≤ s.new_sum ∧ s.new_sum ≤ 3 * 4095) ∧ (0 ≤ s.old_sum ∧ s.old_sum ≤ 3 * 4095) := by
  obtain ⟨hn, ho⟩ := hs
  have h9 := hb ((s.ind + 9) % 10)
  have h8 := hb ((s.ind + 8) % 10)
  have h7 := hb ((s.ind + 7) % 10)
  have h6 := hb ((s.ind + 6) % 10)
  have h5 := hb ((s.ind + 5) % 10)
  have h4 := hb ((s.ind + 4) % 10)
  refine ⟨⟨?_, ?_⟩, ⟨?_, ?_⟩⟩ <;> omega

theorem monitor_eq_exec (s : State) (xs : List Int) :
    monitor s xs = exec s (xs.map .tim6) := by
  simp only [monitor, exec, List.foldl_map]
  rfl

theorem monitorSamples_map (xs : List Int) : monitorSamples (xs.map .tim6) = xs := by
  induction xs with
  | nil => rfl
  | cons x t ih => simp [monitorSamples, ih]

theorem monitor_bg_max (xs : List Int) : ∀ s : State, (monitor s xs).bg_max = s.bg_max := by
  induction xs with
  | nil => intro s; rfl
  | cons x t ih => intro s; rw [monitor_cons, ih, tick_bg_max]

theorem cooldown_from_start (s : State) (xs : List Int) (h0 : s.last_peak = 0) (m : Nat) :
    m ≤ 5 → m ≤ xs.length → (stateAt s xs m).last_peak = (m : Int) := by
  induction m with
  | zero => intro _ _; simpa [stateAt, monitor] using h0
  | succ m ih =>
    intro h5 hlen
    have ihm := ih (by omega) (by omega)
    have hstep := stateAt_succ s xs m (by omega)
    have := tick_no_peak_of_cooldown (stateAt s xs m) (xs.getD m 0) (by rw [ihm]; omega)
    rw [hstep, this.2, ihm]
    push_cast; ring

/-- A tick changes `peak_flag` exactly when its test, on the sums it leaves
behind, succeeds. -/
theorem tick_changes_iff (s : State) (x : Int) (hwf : s.WF) :
    (TIM6_DAC_IRQHandler s x).peak_flag ≠ s.peak_flag ↔
      ((TIM6_DAC_IRQHandler s x).new_sum > (TIM6_DAC_IRQHandler s x).old_sum + 200 ∧
        s.last_peak > 4 ∧ x > s.bg_max) := by
  have hx := rd_wr_ind s x hwf
  unfold TIM6_DAC_IRQHandler
  simp only [hx, THRESH, COOLDOWN]
  split
  · next hc => simp only [hc, and_self, iff_true]; omega
  · next hc => simp only [hc, iff_false]; simp

/-! ## Claims -/

/-- C1 (as stated, refuted): in the monitoring scenario it is not the case that
`peak_flag` stays 0 on tick indices 0 through 7 and is first incremented by
tick index 8. -/
theorem C1_scenario_counterexample :
    ¬ ((∀ k, k ≤ 7 → (stateAt (resetState 300) scenarioSamples (k + 1)).peak_flag = 0) ∧
        peakAt (resetState 300) scenarioSamples 8) := by
  intro h
  exact absurd (h.1 6 (by decide)) (by decide)

/-- C1 (amended): in the monitoring scenario (reset state, noise floor 300,
samples 50 x6, 600 x3, 50) no peak is registered on tick indices 0 through 5,
tick index 6 (the first 600) is the first and only tick that increments
`peak_flag`, and `peak_flag` is 1 from then on. -/
theorem C1_scenario_first_peak_at_tick_6 :
    (∀ k, k ≤ 5 → ¬ peakAt (resetState 300) scenarioSamples k) ∧
      peakAt (resetState 300) scenarioSamples 6 ∧
      (∀ k, 6 < k → ¬ peakAt (resetState 300) scenarioSamples k) ∧
      (List.range 11).map (fun k => (stateAt (resetState 300) scenarioSamples k).peak_flag)
        = [0, 0, 0, 0, 0, 0, 0, 1, 1, 1, 1] := by
  have h6 : peakAt (resetState 300) scenarioSamples 6 := by decide
  refine ⟨?_, h6, ?_, by decide⟩
  · intro k hk
    have : ∀ k, k < 6 → ¬ peakAt (resetState 300) scenarioSamples k := by decide
    exact this k (by omega)
  · intro k hk hp
    have hlt := peakAt_lt_length _ _ k hp
    have : ∀ k, k < 10 → 6 < k → ¬ peakAt (resetState 300) scenarioSamples k := by decide
    exact this k (by simpa [scenarioSamples] using hlt) hk hp

/-- C2 (debounce law): if tick index `i` of a monitoring run from any state
increments `peak_flag`, then `last_peak` was greater than 4 just before that
tick, none of the next 5 ticks changes `peak_flag`, and every later tick that
registers a peak is at least 6 ticks after `i`. -/
theorem C2_debounce (s : State) (xs : List Int) (i : Nat) (h : peakAt s xs i) :
    4 < (stateAt s xs i).last_peak ∧
      (stateAt s xs (i + 1)).peak_flag = (stateAt s xs i).peak_flag + 1 ∧
      (∀ k, i < k → k ≤ i + 5 → ¬ peakAt s xs k) ∧
      (∀ j, i < j → peakAt s xs j → i + 6 ≤ j) := by
  refine ⟨(peakAt_cooldown s xs i h).1, ?_, no_peak_in_cooldown s xs i h, ?_⟩
  · have hlt := peakAt_lt_length s xs i h
    unfold peakAt at h
    rw [stateAt_succ s xs i hlt] at h ⊢
    rcases tick_cases (stateAt s xs i) (xs.getD i 0) with h1 | h1
    · exact h1.2.1
    · exact absurd h1.1 h
  · intro j hij hj
    by_contra hn
    exact no_peak_in_cooldown s xs i h j hij (by omega) hj

/-- Witness of C2: a run with peaks at tick indices 6 and 12. -/
theorem C2_debounce_witness :
    peakAt (resetState 300) [50, 50, 50, 50, 50, 50, 600, 600, 600, 600, 600, 600, 2000] 6 ∧
      peakAt (resetState 300) [50, 50, 50, 50, 50, 50, 600, 600, 600, 600, 600, 600, 2000] 12 ∧
      (∀ j, 6 < j →
        peakAt (resetState 300) [50, 50, 50, 50, 50, 50, 600, 600, 600, 600, 600, 600, 2000] j →
        6 + 6 ≤ j) :=
  ⟨by decide, by decide,
    (C2_debounce (resetState 300)
      [50, 50, 50, 50, 50, 50, 600, 600, 600, 600, 600, 600, 2000] 6 (by decide)).2.2.2⟩

/-- C3 (as stated, refuted): after 101 calibration ticks of value 100 from the
state left by `calib_background`, `bg_max` is not 106. -/
theorem C3_calibration_101_counterexample :
    ¬ ((calibrate (calib_background powerOn) (List.replicate 101 100)).bg_max = 106) := by
  rw [calibrate_counting _ _ (by simp [calib_background])]
  simp only [calib_background, foldl_max_replicate 100 0 100 (by decide)]
  decide

/-- C3 (amended): from the state left by `calib_background`, after 101
calibration ticks of value 100 `bg_max` is 100 and the calibration timer is
still enabled; after exactly 102 such ticks `bg_max` is 106. -/
theorem C3_calibration_102_ticks (s : State) :
    (calibrate (calib_background s) (List.replicate 101 100)).bg_max = 100 ∧
      (calibrate (calib_background s) (List.replicate 101 100)).tim2_cen = true ∧
      (calibrate (calib_background s) (List.replicate 102 100)).bg_max = 106 := by
  refine ⟨?_, ?_, ?_⟩
  · rw [calibrate_counting _ _ (by simp [calib_background])]
    simp only [calib_background, foldl_max_replicate 100 0 100 (by decide)]
  · rw [calibrate_counting _ _ (by simp [calib_background])]
    simp only [calib_background]
  · rw [calibrate_full s _ (by simp)]
    simp only [foldl_max_replicate 101 0 100 (by decide)]
    decide

/-- C4: for a calibration run (`calib_background`, then the 102 ticks up to and
including the one that stops the calibration timer) with non-negative samples
whose maximum is `M`, `bg_max` at completion is `17 * M / 16` rounded down; the
calibration timer is enabled before each of the 102 ticks and disabled after
the last; every permutation of the samples gives the same `bg_max`. -/
theorem C4_noise_floor (s : State) (xs : List Int) (M : Int)
    (hlen : xs.length = 102) (hnn : ∀ x ∈ xs, 0 ≤ x)
    (hM : M ∈ xs) (hmax : ∀ x ∈ xs, x ≤ M) :
    (calibrate (calib_background s) xs).bg_max = 17 * M / 16 ∧
      (calibrate (calib_background s) xs).tim2_cen = false ∧
      (∀ k, k < 102 → (calibrate (calib_background s) (xs.take k)).tim2_cen = true) ∧
      (∀ ys, ys.Perm xs →
        (calibrate (calib_background s) ys).bg_max
          = (calibrate (calib_background s) xs).bg_max) := by
  have hfold : ∀ ys : List Int, ys.Perm xs → ys.foldl max 0 = M := fun ys hp =>
    foldl_max_eq ys 0 M (hnn M hM) (hp.mem_iff.mpr hM) (fun x hx => hmax x (hp.mem_iff.mp hx))
  refine ⟨?_, ?_, ?_, ?_⟩
  · rw [calibrate_full s xs hlen, ← hfold xs (List.Perm.refl xs)]
  · rw [calibrate_full s xs hlen]
  · intro k hk
    rw [calibrate_counting _ _ (by simp [calib_background, List.length_take]; omega)]
    simp only [calib_background]
  · intro ys hp
    rw [calibrate_full s xs hlen, calibrate_full s ys (by rw [hp.length_eq, hlen])]
    simp only
    rw [hfold ys hp, hfold xs (List.Perm.refl xs)]

/-- Witness of C4: 101 samples of value 100 followed by one of value 165. -/
theorem C4_noise_floor_witness :
    (List.replicate 101 100 ++ [(165 : Int)]).length = 102 ∧
      (165 : Int) ∈ List.replicate 101 100 ++ [(165 : Int)] ∧
      (calibrate (calib_background powerOn) (List.replicate 101 100 ++ [165])).bg_max = 175 :=
  ⟨by simp, by simp,
    (C4_noise_floor powerOn (List.replicate 101 100 ++ [165]) 165 (by simp)
      (by intro x hx; simp at hx; rcases hx with ⟨_, rfl⟩ | rfl <;> decide)
      (by simp)
      (by intro x hx; simp at hx; rcases hx with ⟨_, rfl⟩ | rfl <;> decide)).1⟩

/-- C5 (noise-floor gate): from any well-formed state, a sequence of
monitoring ticks whose samples are all at most `bg_max` leaves `peak_flag`
unchanged, whatever the sums, the cooldown and the buffer contents. -/
theorem C5_noise_floor_gate (s : State) (xs : List Int) (hwf : s.WF)
    (hx : ∀ x ∈ xs, x ≤ s.bg_max) :
    (monitor s xs).peak_flag = s.peak_flag ∧ (monitor s xs).bg_max = s.bg_max := by
  induction xs generalizing s with
  | nil => exact ⟨rfl, rfl⟩
  | cons x t ih =>
    have hq := tick_quiet s x hwf (hx x (List.mem_cons_self x t))
    have hb := tick_bg_max s x
    have := ih (TIM6_DAC_IRQHandler s x) (tick_WF s x hwf)
      (fun y hy => by rw [hb]; exact hx y (List.mem_cons_of_mem x hy))
    rw [monitor_cons]
    exact ⟨this.1.trans hq, this.2.trans hb⟩

/-- Witness of C5: a steep rise after a long quiet stretch, all of it at or
below the noise floor 700, counts nothing. -/
theorem C5_noise_floor_gate_witness :
    (resetState 700).WF ∧
      (monitor (resetState 700) [50, 50, 50, 50, 50, 50, 600, 700, 700]).peak_flag = 0 :=
  ⟨by decide,
    (C5_noise_floor_gate (resetState 700) [50, 50, 50, 50, 50, 50, 600, 700, 700] (by decide)
      (by decide)).1⟩

/-- C6 (as stated, refuted): with two peaks counted and the signal counter at
0, `Audio_Run` leaves the signal counter at 1, not at 0 + 2. -/
theorem C6_audio_run_counterexample :
    (check_peak { powerOn with peak_flag := 2 }).1 = 2 ∧
      (Audio_Run { powerOn with peak_flag := 2 }).soundDetectedSignal = 1 ∧
      (Audio_Run { powerOn with peak_flag := 2 }).soundDetectedSignal
        ≠ ({ powerOn with peak_flag := 2 } : State).soundDetectedSignal + 2 := by
  decide

/-- C6 (amended): `Audio_Run` reads `peak_flag` through `check_peak` and leaves
it 0; when the value read is positive the signal counter goes up by exactly 1
(modulo 256), whatever the count; otherwise the signal counter is unchanged;
nothing else changes. -/
theorem C6_audio_run_adds_one (s : State) :
    Audio_Run s =
      { s with
        peak_flag := 0
        soundDetectedSignal :=
          if (check_peak s).1 > 0 then (s.soundDetectedSignal + 1) % 256
          else s.soundDetectedSignal } := by
  unfold Audio_Run
  by_cases h : s.peak_flag > 0
  · simp only [check_peak, h, if_true, GlobalVariables_Write, GlobalVariables_Read]
    congr 1
    omega
  · simp only [check_peak, h, if_false]

/-- C7: `check_peak` returns `peak_flag`, sets it to 0 and changes nothing
else; a second call right after returns 0 and changes nothing. -/
theorem C7_check_peak_read_and_reset (s : State) :
    (check_peak s).1 = s.peak_flag ∧
      (check_peak s).2 = { s with peak_flag := 0 } ∧
      (check_peak (check_peak s).2).1 = 0 ∧
      (check_peak (check_peak s).2).2 = (check_peak s).2 :=
  ⟨rfl, rfl, rfl, rfl⟩

/-- C8 (as stated, refuted): from a state reached during monitoring,
`calib_background` leaves `peak_flag`, `last_peak` and `buffer_vals` as they
were, none of them zero; and after the calibration run that follows, the first
monitoring tick counts a peak that a fresh detector with the same noise floor
does not count. -/
theorem C8_calib_background_counterexample :
    (calib_background monitoredState).peak_flag = 1 ∧
      (calib_background monitoredState).last_peak = 9 ∧
      (calib_background monitoredState).buffer_vals
        = [50, 50, 50, 50, 50, 50, 600, 600, 600, 50] ∧
      (calibrate (calib_background monitoredState) (List.replicate 102 50)).bg_max = 53 ∧
      peakAt (calibrate (calib_background monitoredState) (List.replicate 102 50)) [600] 0 ∧
      ¬ peakAt (resetState 53) [600] 0 := by
  rw [calibrate_full _ _ (by simp)]
  simp only [foldl_max_replicate 101 0 50 (by decide)]
  decide

/-- C8 (amended): `calib_background` resets only the calibration accumulators
`bg_iter` and `bg_max`, disables the monitoring timer and enables the
calibration timer; it and any calibration ticks after it leave `peak_flag`,
`last_peak`, `buffer_vals`, `ind`, `new_sum` and `old_sum` as they were. -/
theorem C8_calib_background_keeps_detector_state (s : State) (xs : List Int) :
    calib_background s = { s with bg_iter := 0, bg_max := 0, tim6_cen := false, tim2_cen := true } ∧
      (calibrate (calib_background s) xs).peak_flag = s.peak_flag ∧
      (calibrate (calib_background s) xs).last_peak = s.last_peak ∧
      (calibrate (calib_background s) xs).buffer_vals = s.buffer_vals ∧
      (calibrate (calib_background s) xs).ind = s.ind ∧
      (calibrate (calib_background s) xs).new_sum = s.new_sum ∧
      (calibrate (calib_background s) xs).old_sum = s.old_sum :=
  ⟨rfl, calibrate_frame xs (calib_background s)⟩

/-- C9: from a well-formed state (`0 ≤ ind < 10`, ten buffer entries) one
monitoring tick with sample `x` is the specified step: it stores `x` at the
cursor, updates the two sums with `mid = buffer_vals[(ind+7) % 10]` and
`far = buffer_vals[(ind+4) % 10]`, counts a peak and clears the cooldown
exactly when the three conditions hold on the updated sums, otherwise bumps
the cooldown, and advances the cursor modulo 10. -/
theorem C9_monitor_step (s : State) (x : Int) (hwf : s.WF) :
    TIM6_DAC_IRQHandler s x = monitorStepSpec s x ∧
      ((TIM6_DAC_IRQHandler s x).peak_flag = s.peak_flag + 1 ↔
        (s.new_sum + x - rd s.buffer_vals ((s.ind + 7) % 10)
            > s.old_sum + rd s.buffer_vals ((s.ind + 7) % 10)
                - rd s.buffer_vals ((s.ind + 4) % 10) + 200
          ∧ s.last_peak > 4 ∧ x > s.bg_max)) := by
  have hx := rd_wr_ind s x hwf
  obtain ⟨hmid, hfar, hind⟩ := tick_reads s x hwf
  have hsums : ∀ a b c d : Int, a + (x - c) > b + (c - d) + 200 ↔ a + x - c > b + c - d + 200 := by
    intro a b c d; constructor <;> intro h <;> omega
  constructor
  · unfold TIM6_DAC_IRQHandler monitorStepSpec
    simp only [hx, hmid, hfar, hind, THRESH, COOLDOWN, hsums]
    split
    · next hc => simp only [hc, decide_True, if_true]; congr 1 <;> ring
    · next hc => simp only [hc, decide_False]; congr 1 <;> ring
  · rw [tick_peak_iff]
    unfold peakCondition
    simp only [hx, hmid, hfar, THRESH, COOLDOWN, hsums]

/-- Witness of C9: the tick of the scenario that counts the peak. -/
theorem C9_monitor_step_witness :
    (stateAt (resetState 300) scenarioSamples 6).WF ∧
      TIM6_DAC_IRQHandler (stateAt (resetState 300) scenarioSamples 6) 600
        = monitorStepSpec (stateAt (resetState 300) scenarioSamples 6) 600 :=
  ⟨by decide, (C9_monitor_step (stateAt (resetState 300) scenarioSamples 6) 600 (by decide)).1⟩

/-- C10: after a `check_peak`, whatever calibration ticks, monitoring ticks and
`calib_background` calls follow, the next `check_peak` returns exactly the
number of monitoring ticks among them at which the peak condition held. -/
theorem C10_check_peak_counts_peaks (s : State) (ops : List Op) :
    (check_peak (run (check_peak s).2 ops)).1 = (peakTicks (check_peak s).2 ops : Int) := by
  show (run (check_peak s).2 ops).peak_flag = _
  rw [run_peak_flag]
  simp [check_peak]

/-- C11 (sliding-sum invariant): in every state reached from power-on by any
sequence of calibration ticks, monitoring ticks, `check_peak`,
`calib_background` and `Audio_Run`, `new_sum` is the sum of the three most
recently written buffer slots and `old_sum` the sum of the three before them. -/
theorem C11_sliding_sums (acts : List Action) :
    (exec powerOn acts).new_sum
        = rd (exec powerOn acts).buffer_vals (((exec powerOn acts).ind + 9) % 10)
          + rd (exec powerOn acts).buffer_vals (((exec powerOn acts).ind + 8) % 10)
          + rd (exec powerOn acts).buffer_vals (((exec powerOn acts).ind + 7) % 10) ∧
      (exec powerOn acts).old_sum
        = rd (exec powerOn acts).buffer_vals (((exec powerOn acts).ind + 6) % 10)
          + rd (exec powerOn acts).buffer_vals (((exec powerOn acts).ind + 5) % 10)
          + rd (exec powerOn acts).buffer_vals (((exec powerOn acts).ind + 4) % 10) :=
  exec_SumsInv powerOn powerOn_WF powerOn_SumsInv acts

/-- C12 (timer mutual exclusion): after `setup_peak_detection` from power-on,
whatever calibration ticks, monitoring ticks, `calib_background`, `check_peak`
and `Audio_Run` follow, exactly one of TIM2 and TIM6 is enabled; this holds
when a tick is delivered only while its own timer is enabled, and also when
the handlers are run regardless of the enable bits. -/
theorem C12_timer_mutual_exclusion (acts : List Action) :
    (((execGated (setup_peak_detection powerOn) acts).tim2_cen = true ∧
          (execGated (setup_peak_detection powerOn) acts).tim6_cen = false) ∨
        ((execGated (setup_peak_detection powerOn) acts).tim2_cen = false ∧
          (execGated (setup_peak_detection powerOn) acts).tim6_cen = true)) ∧
      (((exec (setup_peak_detection powerOn) acts).tim2_cen = true ∧
          (exec (setup_peak_detection powerOn) acts).tim6_cen = false) ∨
        ((exec (setup_peak_detection powerOn) acts).tim2_cen = false ∧
          (exec (setup_peak_detection powerOn) acts).tim6_cen = true)) := by
  constructor
  · induction acts using List.reverseRecOn with
    | nil => exact Or.inl ⟨rfl, rfl⟩
    | append_singleton t a ih =>
      have : execGated (setup_peak_detection powerOn) (t ++ [a])
          = deliver (execGated (setup_peak_detection powerOn) t) a := by
        simp [execGated, List.foldl_append]
      rw [this]
      exact deliver_timers _ a ih
  · induction acts using List.reverseRecOn with
    | nil => exact Or.inl ⟨rfl, rfl⟩
    | append_singleton t a ih =>
      rw [exec_snoc]
      exact act_timers _ a ih

/-- C13 (as stated, refuted): on the calibration tick that stops TIM2 and
starts TIM6, the ring buffer, the two sums and the cooldown are not zero but
what the previous monitoring phase left. -/
theorem C13_monitoring_restart_counterexample :
    preMonitorState.tim2_cen = true ∧ preMonitorState.tim6_cen = false ∧
      (TIM2_IRQHandler preMonitorState 50).tim2_cen = false ∧
      (TIM2_IRQHandler preMonitorState 50).tim6_cen = true ∧
      (TIM2_IRQHandler preMonitorState 50).buffer_vals
        = [50, 50, 50, 50, 50, 50, 600, 600, 600, 50] ∧
      (TIM2_IRQHandler preMonitorState 50).new_sum = 150 ∧
      (TIM2_IRQHandler preMonitorState 50).old_sum = 150 ∧
      (TIM2_IRQHandler preMonitorState 50).last_peak = 9 := by
  rw [preMonitorState_eq]
  decide

/-- C13 (amended): on the calibration tick that stops TIM2 and starts TIM6
(the tick counter has passed `N_CALIB`), the handler adds the 1/16 margin to
the running maximum and switches the timers; `buffer_vals`, `ind`, `new_sum`,
`old_sum`, `last_peak` and `peak_flag` are left as they were. -/
theorem C13_monitoring_restart_keeps_history (s : State) (x : Int) (h : N_CALIB < s.bg_iter) :
    TIM2_IRQHandler s x =
      { s with
        bg_iter := s.bg_iter + 1
        bg_max := max s.bg_max x + (max s.bg_max x >>> (4 : Nat))
        tim2_cen := false
        tim6_cen := true } ∧
      (TIM2_IRQHandler s x).buffer_vals = s.buffer_vals ∧
      (TIM2_IRQHandler s x).ind = s.ind ∧
      (TIM2_IRQHandler s x).new_sum = s.new_sum ∧
      (TIM2_IRQHandler s x).old_sum = s.old_sum ∧
      (TIM2_IRQHandler s x).last_peak = s.last_peak ∧
      (TIM2_IRQHandler s x).peak_flag = s.peak_flag := by
  have hm : (if s.bg_max > x then s.bg_max else x) = max s.bg_max x := by
    rcases le_total s.bg_max x with hle | hle
    · rw [max_eq_right hle]; split <;> omega
    · rw [max_eq_left hle]; split <;> omega
  have hc : s.bg_iter > N_CALIB := h
  have heq : TIM2_IRQHandler s x =
      { s with
        bg_iter := s.bg_iter + 1
        bg_max := max s.bg_max x + (max s.bg_max x >>> (4 : Nat))
        tim2_cen := false
        tim6_cen := true } := by
    unfold TIM2_IRQHandler
    simp only [hc, if_true, hm]
  refine ⟨heq, ?_⟩
  rw [heq]
  exact ⟨rfl, rfl, rfl, rfl, rfl, rfl⟩

/-- Witness of C13: the restart tick after a monitoring phase that counted a
peak. -/
theorem C13_monitoring_restart_keeps_history_witness :
    (TIM2_IRQHandler { monitoredState with bg_iter := 101, bg_max := 50 } 50).tim6_cen = true ∧
      (TIM2_IRQHandler { monitoredState with bg_iter := 101, bg_max := 50 } 50).last_peak = 9 :=
  ⟨by decide,
    (C13_monitoring_restart_keeps_history { monitoredState with bg_iter := 101, bg_max := 50 } 50
      (by decide)).2.2.2.2.2.1.trans (by decide)⟩

/-- C14 (ring-buffer retention): from a well-formed state, after any sequence
of operations that contains at least 10 monitoring ticks, the slot `j` places
behind the cursor (`j = 0..9`) holds the `j`-th most recent monitoring sample,
so the buffer is exactly the last 10 monitoring samples; no calibration tick
writes the buffer. -/
theorem C14_ring_retention (s : State) (acts : List Action) (hwf : s.WF)
    (hk : 10 ≤ (monitorSamples acts).length) :
    (∀ j : Nat, j < 10 →
      rd (exec s acts).buffer_vals (((exec s acts).ind + 9 - (j : Int)) % 10)
        = (monitorSamples acts).getD ((monitorSamples acts).length - 1 - j) 0) ∧
      (∀ (t : State) (x : Int), (TIM2_IRQHandler t x).buffer_vals = t.buffer_vals) :=
  ⟨fun j hj => retention s hwf acts j hj (by omega), fun t x => (calibTick_frame t x).2.2.1⟩

/-- Witness of C14: after `retentionRun` the slot three places behind the
cursor holds the sample 9. -/
theorem C14_ring_retention_witness :
    powerOn.WF ∧ 10 ≤ (monitorSamples retentionRun).length ∧
      rd (exec powerOn retentionRun).buffer_vals
          (((exec powerOn retentionRun).ind + 9 - ((3 : Nat) : Int)) % 10) = 9 :=
  ⟨by decide, by decide,
    ((C14_ring_retention powerOn retentionRun (by decide) (by decide)).1 3 (by decide)).trans
      (by decide)⟩

/-- C15 (no detection during calibration): a calibration tick and a call of
`calib_background` leave `peak_flag`, `last_peak`, `buffer_vals`, `ind`,
`new_sum` and `old_sum` unchanged, in every state and for every sample; so
after `calib_background` and any calibration ticks, in either order, the next
`check_peak` still returns the peaks counted before. -/
theorem C15_calibration_keeps_detector (s : State) (x : Int) (xs : List Int) :
    ((TIM2_IRQHandler s x).peak_flag = s.peak_flag ∧
        (TIM2_IRQHandler s x).last_peak = s.last_peak ∧
        (TIM2_IRQHandler s x).buffer_vals = s.buffer_vals ∧
        (TIM2_IRQHandler s x).ind = s.ind ∧
        (TIM2_IRQHandler s x).new_sum = s.new_sum ∧
        (TIM2_IRQHandler s x).old_sum = s.old_sum) ∧
      ((calib_background s).peak_flag = s.peak_flag ∧
        (calib_background s).last_peak = s.last_peak ∧
        (calib_background s).buffer_vals = s.buffer_vals ∧
        (calib_background s).ind = s.ind ∧
        (calib_background s).new_sum = s.new_sum ∧
        (calib_background s).old_sum = s.old_sum) ∧
      (check_peak (calibrate (calib_background s) xs)).1 = s.peak_flag ∧
      (check_peak (calib_background (calibrate s xs))).1 = s.peak_flag :=
  ⟨calibTick_frame s x, ⟨rfl, rfl, rfl, rfl, rfl, rfl⟩,
    (calibrate_frame xs (calib_background s)).1, (calibrate_frame xs s).1⟩

/-- C17 (index safety): in every state reached from power-on by any sequence
of operations the cursor satisfies `0 ≤ ind < 10` and the buffer has 10
entries; the three indices of a monitoring tick, `ind`, `(ind + N - 3) % N`
and `(ind + N - 6) % N`, lie in `0..9`, are pairwise distinct and index the
buffer within bounds. -/
theorem C17_index_safety (acts : List Action) :
    (0 ≤ (exec powerOn acts).ind ∧ (exec powerOn acts).ind < 10) ∧
      (exec powerOn acts).buffer_vals.length = 10 ∧
      (0 ≤ Int.tmod ((exec powerOn acts).ind + N - 3) N ∧
        Int.tmod ((exec powerOn acts).ind + N - 3) N < 10) ∧
      (0 ≤ Int.tmod ((exec powerOn acts).ind + N - 6) N ∧
        Int.tmod ((exec powerOn acts).ind + N - 6) N < 10) ∧
      (exec powerOn acts).ind ≠ Int.tmod ((exec powerOn acts).ind + N - 3) N ∧
      (exec powerOn acts).ind ≠ Int.tmod ((exec powerOn acts).ind + N - 6) N ∧
      Int.tmod ((exec powerOn acts).ind + N - 3) N
        ≠ Int.tmod ((exec powerOn acts).ind + N - 6) N ∧
      (exec powerOn acts).ind.toNat < (exec powerOn acts).buffer_vals.length ∧
      (Int.tmod ((exec powerOn acts).ind + N - 3) N).toNat
        < (exec powerOn acts).buffer_vals.length ∧
      (Int.tmod ((exec powerOn acts).ind + N - 6) N).toNat
        < (exec powerOn acts).buffer_vals.length := by
  obtain ⟨hlen, h0, h1⟩ := exec_WF powerOn powerOn_WF acts
  generalize exec powerOn acts = t at *
  simp only [N]
  rw [Int.tmod_eq_emod (by omega) (by decide), Int.tmod_eq_emod (by omega) (by decide), hlen]
  refine ⟨⟨h0, h1⟩, rfl, ?_, ?_, ?_, ?_, ?_, ?_, ?_, ?_⟩ <;> omega

/-- C18 (length of a calibration run): after `calib_background`, each of the
first 101 calibration ticks only counts and sets `bg_max` to the running
maximum, with TIM2 enabled and TIM6 disabled; the 102nd tick is the one that
adds the 1/16 margin, disables TIM2 and enables TIM6. -/
theorem C18_calibration_length (s : State) (xs : List Int) (hlen : xs.length = 102) :
    (∀ k : Nat, k ≤ 101 →
      calibrate (calib_background s) (xs.take k) =
        { s with
          bg_iter := (k : Int)
          bg_max := (xs.take k).foldl max 0
          tim6_cen := false
          tim2_cen := true }) ∧
      calibrate (calib_background s) xs =
        { s with
          bg_iter := 102
          bg_max := xs.foldl max 0 + (xs.foldl max 0 >>> (4 : Nat))
          tim6_cen := true
          tim2_cen := false } := by
  constructor
  · intro k hk
    have hl : (xs.take k).length = k := by rw [List.length_take]; omega
    rw [calibrate_counting _ _ (by simp only [calib_background, hl]; omega)]
    simp only [calib_background, hl, zero_add]
  · rw [calibrate_full s xs hlen, margin_eq]
    rfl

/-- Witness of C18: 102 ticks of value 100 from power-on. -/
theorem C18_calibration_length_witness :
    (List.replicate 102 (100 : Int)).length = 102 ∧
      (calibrate (calib_background powerOn) (List.replicate 102 100)).tim6_cen = true :=
  ⟨by simp,
    (congrArg State.tim6_cen
      (C18_calibration_length powerOn (List.replicate 102 100) (by simp)).2).trans rfl⟩

/-- C16 (the sliding sums cannot overflow): in every state reached from
power-on by operations whose converted values lie in `0..4095`, both sums lie
in `0..3*4095` and every buffer slot in `0..4095`; for a next monitoring tick
with such a value, the two differences it adds lie within `±4095`, the sums it
leaves lie in `0..3*4095` again, and `old_sum + THRESH` is at most `10*4095`,
which is below `2^31`. -/
theorem C16_sums_bounded (acts : List Action) (h : ∀ a ∈ acts, a.inRange) :
    ((0 ≤ (exec powerOn acts).new_sum ∧ (exec powerOn acts).new_sum ≤ 3 * 4095) ∧
        (0 ≤ (exec powerOn acts).old_sum ∧ (exec powerOn acts).old_sum ≤ 3 * 4095)) ∧
      (∀ i : Int, 0 ≤ rd (exec powerOn acts).buffer_vals i ∧
        rd (exec powerOn acts).buffer_vals i ≤ 4095) ∧
      (∀ x : Int, 0 ≤ x → x ≤ 4095 →
        (∀ i j : Int,
          -4095 ≤ rd (wr (exec powerOn acts).buffer_vals (exec powerOn acts).ind x) i
              - rd (wr (exec powerOn acts).buffer_vals (exec powerOn acts).ind x) j ∧
            rd (wr (exec powerOn acts).buffer_vals (exec powerOn acts).ind x) i
              - rd (wr (exec powerOn acts).buffer_vals (exec powerOn acts).ind x) j ≤ 4095) ∧
        (0 ≤ (TIM6_DAC_IRQHandler (exec powerOn acts) x).new_sum ∧
          (TIM6_DAC_IRQHandler (exec powerOn acts) x).new_sum ≤ 3 * 4095) ∧
        (0 ≤ (TIM6_DAC_IRQHandler (exec powerOn acts) x).old_sum ∧
          (TIM6_DAC_IRQHandler (exec powerOn acts) x).old_sum ≤ 3 * 4095) ∧
        0 ≤ (TIM6_DAC_IRQHandler (exec powerOn acts) x).old_sum + THRESH ∧
        (TIM6_DAC_IRQHandler (exec powerOn acts) x).old_sum + THRESH ≤ 10 * 4095) ∧
      (10 * 4095 : Int) < 2 ^ 31 := by
  have hwf := exec_WF powerOn powerOn_WF acts
  have hs := exec_SumsInv powerOn powerOn_WF powerOn_SumsInv acts
  have hb := exec_BufInv powerOn powerOn_BufInv acts h
  refine ⟨sums_bounded _ hs hb, hb, ?_, by norm_num⟩
  intro x hx0 hx1
  have hb2 : BufInv (TIM6_DAC_IRQHandler (exec powerOn acts) x) :=
    act_BufInv _ (.tim6 x) ⟨hx0, hx1⟩ hb
  have hs2 := tick_SumsInv _ x hwf hs
  have hbd := sums_bounded _ hs2 hb2
  refine ⟨?_, hbd.1, hbd.2, ?_, ?_⟩
  · intro i j
    have hi := wr_BufInv _ x hx0 hx1 hb i
    have hj := wr_BufInv _ x hx0 hx1 hb j
    constructor <;> omega
  · simp only [THRESH]; omega
  · simp only [THRESH]; omega

/-- Witness of C16: after `rangeRun` from power-on both sums are within
`0..3*4095`. -/
theorem C16_sums_bounded_witness :
    (∀ a ∈ rangeRun, a.inRange) ∧
      (0 ≤ (exec powerOn rangeRun).new_sum ∧ (exec powerOn rangeRun).new_sum ≤ 3 * 4095) :=
  ⟨by decide, (C16_sums_bounded rangeRun (by decide)).1.1⟩

/-- C19 (power-on warm-up): from a state whose buffer, cursor, sums and
cooldown are as at power-on, whatever the noise floor and the samples, none of
the monitoring ticks 0 to 4 changes `peak_flag`; at tick 5 the updated sums are
samples 3 to 5 and samples 0 to 2, the tick counts a peak exactly when
`s3+s4+s5 > s0+s1+s2 + 200` and `s5 > bg_max`, and there are samples for which
it does. -/
theorem C19_warm_up (s : State) (xs : List Int)
    (hbuf : s.buffer_vals = List.replicate 10 0) (hind : s.ind = 0)
    (hlp : s.last_peak = 0) (hnew : s.new_sum = 0) (hold : s.old_sum = 0) :
    (∀ k, k ≤ 4 → ¬ peakAt s xs k) ∧
      (6 ≤ xs.length →
        (stateAt s xs 6).new_sum = xs.getD 3 0 + xs.getD 4 0 + xs.getD 5 0 ∧
        (stateAt s xs 6).old_sum = xs.getD 0 0 + xs.getD 1 0 + xs.getD 2 0 ∧
        (peakAt s xs 5 ↔
          (xs.getD 3 0 + xs.getD 4 0 + xs.getD 5 0 > xs.getD 0 0 + xs.getD 1 0 + xs.getD 2 0 + 200
            ∧ xs.getD 5 0 > s.bg_max))) ∧
      peakAt s [0, 0, 0, 0, 0, max s.bg_max 0 + 201] 5 := by
  have hwf : s.WF := by
    unfold State.WF; rw [hbuf, hind]; simp
  have hsi : SumsInv s := by
    unfold SumsInv
    simp only [hbuf, hnew, hold, rd_replicate]
    exact ⟨rfl, rfl⟩
  have key : ∀ ys : List Int, 6 ≤ ys.length →
      (stateAt s ys 6).new_sum = ys.getD 3 0 + ys.getD 4 0 + ys.getD 5 0 ∧
      (stateAt s ys 6).old_sum = ys.getD 0 0 + ys.getD 1 0 + ys.getD 2 0 ∧
      (peakAt s ys 5 ↔
        (ys.getD 3 0 + ys.getD 4 0 + ys.getD 5 0 > ys.getD 0 0 + ys.getD 1 0 + ys.getD 2 0 + 200
          ∧ ys.getD 5 0 > s.bg_max)) := by
    intro ys hlen
    have hms : monitorSamples ((ys.take 6).map .tim6) = ys.take 6 := monitorSamples_map _
    have hl : (ys.take 6).length = 6 := by rw [List.length_take]; omega
    have hget : ∀ i, i < 6 → (ys.take 6).getD i 0 = ys.getD i 0 := by
      intro i hi
      rw [List.getD_eq_getElem?_getD, List.getD_eq_getElem?_getD, List.getElem?_take_of_lt hi]
    have hret : ∀ j : Nat, j < 6 →
        rd (stateAt s ys 6).buffer_vals (((stateAt s ys 6).ind + 9 - (j : Int)) % 10)
          = ys.getD (5 - j) 0 := by
      intro j hj
      have := retention s hwf ((ys.take 6).map .tim6) j (by omega) (by rw [hms, hl]; exact hj)
      rw [hms, hl, ← monitor_eq_exec, hget _ (by omega)] at this
      exact this
    have hinv : SumsInv (stateAt s ys 6) := by
      unfold stateAt
      rw [monitor_eq_exec]
      exact exec_SumsInv s hwf hsi _
    have hsum : (stateAt s ys 6).new_sum = ys.getD 3 0 + ys.getD 4 0 + ys.getD 5 0 ∧
        (stateAt s ys 6).old_sum = ys.getD 0 0 + ys.getD 1 0 + ys.getD 2 0 := by
      have r0 := hret 0 (by omega)
      have r1 := hret 1 (by omega)
      have r2 := hret 2 (by omega)
      have r3 := hret 3 (by omega)
      have r4 := hret 4 (by omega)
      have r5 := hret 5 (by omega)
      generalize stateAt s ys 6 = t at *
      obtain ⟨hn, ho⟩ := hinv
      rw [show t.ind + 9 - ((0 : Nat) : Int) = t.ind + 9 by push_cast; ring] at r0
      rw [show t.ind + 9 - ((1 : Nat) : Int) = t.ind + 8 by push_cast; ring] at r1
      rw [show t.ind + 9 - ((2 : Nat) : Int) = t.ind + 7 by push_cast; ring] at r2
      rw [show t.ind + 9 - ((3 : Nat) : Int) = t.ind + 6 by push_cast; ring] at r3
      rw [show t.ind + 9 - ((4 : Nat) : Int) = t.ind + 5 by push_cast; ring] at r4
      rw [show t.ind + 9 - ((5 : Nat) : Int) = t.ind + 4 by push_cast; ring] at r5
      rw [r0, r1, r2] at hn
      rw [r3, r4, r5] at ho
      simp only [Nat.sub_zero, show 5 - 1 = 4 from rfl, show 5 - 2 = 3 from rfl,
        show 5 - 3 = 2 from rfl, show 5 - 4 = 1 from rfl, show 5 - 5 = 0 from rfl] at hn ho
      constructor
      · rw [hn]; ring
      · rw [ho]; ring
    refine ⟨hsum.1, hsum.2, ?_⟩
    have hwf5 : (stateAt s ys 5).WF := by
      unfold stateAt
      rw [monitor_eq_exec]
      exact exec_WF s hwf _
    have hst := stateAt_succ s ys 5 (by omega)
    have hiff := tick_changes_iff (stateAt s ys 5) (ys.getD 5 0) hwf5
    rw [← hst] at hiff
    have hlp5 := cooldown_from_start s ys hlp 5 (by omega) (by omega)
    have hbg : (stateAt s ys 5).bg_max = s.bg_max := monitor_bg_max _ s
    unfold peakAt
    rw [hiff, hsum.1, hsum.2, hlp5, hbg]
    constructor
    · intro h; exact ⟨h.1, h.2.2⟩
    · intro h; exact ⟨h.1, by norm_num, h.2⟩
  refine ⟨?_, key xs, ?_⟩
  · intro k hk hp
    have hlt := peakAt_lt_length s xs k hp
    have hc := (peakAt_cooldown s xs k hp).1
    rw [cooldown_from_start s xs hlp k (by omega) (by omega)] at hc
    omega
  · refine (key [0, 0, 0, 0, 0, max s.bg_max 0 + 201] (by simp)).2.2.mpr ?_
    have h1 := le_max_left s.bg_max 0
    have h2 := le_max_right s.bg_max 0
    show (0 : Int) + 0 + (max s.bg_max 0 + 201) > 0 + 0 + 0 + 200 ∧ max s.bg_max 0 + 201 > s.bg_max
    constructor <;> omega

/-- Witness of C19: from the reset state with noise floor 300, six ticks the
last of which is a loud sample. -/
theorem C19_warm_up_witness :
    (resetState 300).buffer_vals = List.replicate 10 0 ∧ (resetState 300).last_peak = 0 ∧
      (∀ k, k ≤ 4 → ¬ peakAt (resetState 300) [50, 50, 50, 50, 50, 600] k) ∧
      peakAt (resetState 300) [50, 50, 50, 50, 50, 600] 5 :=
  ⟨rfl, rfl,
    (C19_warm_up (resetState 300) [50, 50, 50, 50, 50, 600] rfl rfl rfl rfl rfl).1,
    by decide⟩

end PeakDetect
